import Mathlib

namespace SliceBread

/-! ### Definitions: filesystem model, decimal rendering, server data model, handler -/

/-- Bytes of a request body or file content, one `Nat` per byte. -/
abbrev Body := List Nat

/-- The filesystem visible to the handler: an association list from full
path strings to file contents.  Earlier entries shadow later ones. -/
abbrev FS := List (String × Body)

/-- Content of the file at path `p`, if it exists. -/
def getFile : FS → String → Option Body
  | [], _ => none
  | (q, v) :: rest, p => if q = p then some v else getFile rest p

/-- Remove every entry for path `p` (models `tokio::fs::remove_file`). -/
def removeFile : FS → String → FS
  | [], _ => []
  | (q, v) :: rest, p =>
    if q = p then removeFile rest p else (q, v) :: removeFile rest p

/-- Create or truncate-and-rewrite the file at `p` with content `v`
(net effect of `File::create` followed by `write_all` and `flush`). -/
def setFile (fs : FS) (p : String) (v : Body) : FS := (p, v) :: removeFile fs p

/-- Models `tokio::fs::try_exists` on the file map. -/
def existsFile (fs : FS) (p : String) : Bool := (getFile fs p).isSome

/-- Fuel-free version of the decimal digit expansion used by `Nat.repr`. -/
def toDigitsRec (n : Nat) : List Char :=
  if _h : n / 10 = 0 then [Nat.digitChar n]
  else toDigitsRec (n / 10) ++ [Nat.digitChar (n % 10)]
decreasing_by exact Nat.div_lt_self (by omega) (by decide)

/-- Base-10 value of a digit-character list, most significant first. -/
def digitsVal (l : List Char) : Nat :=
  l.foldl (fun a c => a * 10 + (c.toNat - 48)) 0

/-- Mirrors `enum SliceBreadServerError`.  The `IoError` and `HyperError`
variants carry the rendered message of the wrapped error value. -/
inductive SliceBreadServerError where
  | InternalServerError (msg : String)
  | BadRequest (msg : String)
  | IoError (msg : String)
  | HyperError (msg : String)
  deriving DecidableEq

/-- The `Response<String>` the handler produces: an HTTP status code and a
plain-text body. -/
structure SBResponse where
  status : Nat
  body : String
  deriving DecidableEq

/-- The response built by `Response::builder().status(201).body(...)`
(the body text, typo included, is exactly the source's). -/
def successResponse : SBResponse :=
  { status := 201, body := "File uploaded successfuly" }

/-- Request headers: key/value pairs, first binding for a key wins
(as in `hyper::HeaderMap::get`). -/
abbrev Headers := List (String × String)

/-- First value bound to `key`, if any (models `HeaderMap::get`). -/
def lookupHeader : Headers → String → Option String
  | [], _ => none
  | (k, v) :: rest, key => if k = key then some v else lookupHeader rest key

/-- An inbound chunk request: its header map and the result of collecting
its body (`.error msg` models a transport failure during the body read). -/
structure Request where
  headers : Headers
  body : Except String Body

/-- Modelled from the spec: `src/server/src/constants.rs` is not present
under `src/`; the name `HEADER_FILE_ID` is pinned to `"X-File-Id"` by §6
of the spec and by the tests in `server.rs`. -/
def HEADER_FILE_ID : String := "X-File-Id"

/-- Modelled from the spec: `constants.rs` is absent from `src/`; pinned to
`"X-Chunk-Index"` by §6 of the spec and the tests in `server.rs`. -/
def HEADER_CHUNK_INDEX : String := "X-Chunk-Index"

/-- Modelled from the spec: `constants.rs` is absent from `src/`; pinned to
`"X-Total-Chunks"` by §6 of the spec and the tests in `server.rs`. -/
def HEADER_TOTAL_CHUNKS : String := "X-Total-Chunks"

/-- Modelled from the spec: `constants.rs` is absent from `src/`; pinned to
`"X-File-Name"` by §6 of the spec and the tests in `server.rs`. -/
def HEADER_FILE_NAME : String := "X-File-Name"

/-- `FromStr` for `String` (used for `file_id` and `file_name`): it never
fails, so empty values parse to empty strings. -/
def parseString (s : String) : Option String := some s

/-- Value of a decimal digit character, `none` for anything else. -/
def digitVal (c : Char) : Option Nat :=
  if c.isDigit then some (c.toNat - 48) else none

/-- Accumulate decimal digits left to right; any non-digit fails. -/
def parseDigits : List Char → Nat → Option Nat
  | [], acc => some acc
  | c :: cs, acc =>
    match digitVal c with
    | some d => parseDigits cs (acc * 10 + d)
    | none => none

/-- `FromStr` for `usize` (used for `chunk_index` and `total_chunks`):
an optional leading plus sign followed by at least one decimal digit.
The `usize` overflow bound is not modelled; values are unbounded `Nat`. -/
def parseUsize (s : String) : Option Nat :=
  match s.data with
  | [] => none
  | c :: cs =>
    if c = '+' then
      match cs with
      | [] => none
      | _ :: _ => parseDigits cs 0
    else parseDigits (c :: cs) 0

/-- Mirrors `get_header` in `server.rs`: a missing key fails with
`BadRequest("Missing header: <key>")`; a present value that does not parse
fails with `BadRequest("Invalid header value: <key>")`.  The intermediate
`HeaderValue::to_str` failure (`"Invalid header format"`) cannot arise in
this model because header values are carried as strings already. -/
def get_header (parse : String → Option α) (headers : Headers) (key : String) :
    Except SliceBreadServerError α :=
  match lookupHeader headers key with
  | none => .error (.BadRequest ("Missing header: " ++ key))
  | some v =>
    match parse v with
    | none => .error (.BadRequest ("Invalid header value: " ++ key))
    | some a => .ok a

/-- The four `get_header` calls of `SliceBreadServer::call`, in source
order: file id, chunk index, total chunks, file name. -/
def parseMeta (headers : Headers) :
    Except SliceBreadServerError (String × Nat × Nat × String) := do
  let file_id ← get_header parseString headers HEADER_FILE_ID
  let chunk_index ← get_header parseUsize headers HEADER_CHUNK_INDEX
  let total_chunks ← get_header parseUsize headers HEADER_TOTAL_CHUNKS
  let file_name ← get_header parseString headers HEADER_FILE_NAME
  return (file_id, chunk_index, total_chunks, file_name)

/-- Path of the chunk file for index `i`:
`format!("{}/{}/chunk_{}.bin", base_files_dir, file_id, i)`. -/
def chunkPath (base file_id : String) (i : Nat) : String :=
  base ++ "/" ++ file_id ++ "/chunk_" ++ Nat.repr i ++ ".bin"

/-- Path of the assembled destination file:
`format!("{}/{}/{}", base_files_dir, file_id, file_name)`. -/
def destPath (base file_id file_name : String) : String :=
  base ++ "/" ++ file_id ++ "/" ++ file_name

/-- The `for i in 0..total_chunks` existence scan before assembly: the
first index in the given list whose chunk file is absent, if any. -/
def scanMissing (fs : FS) (base file_id : String) : List Nat → Option Nat
  | [] => none
  | i :: rest =>
    if existsFile fs (chunkPath base file_id i) then
      scanMissing fs base file_id rest
    else some i

/-- The assembly loop: for each index, read the chunk file fully, append
its bytes to the destination file, then delete the chunk file.  A missing
chunk file at read time surfaces as the `IoError` that
`tokio::fs::read` would produce; the filesystem as mutated so far is
returned alongside the outcome (assembly is not transactional).
The real code appends through a file handle opened once on the
destination; the map-level append used here coincides with it whenever the
destination path differs from every chunk path still to be processed. -/
def assembleFrom (base file_id dest : String) :
    List Nat → FS → Except SliceBreadServerError Unit × FS
  | [], fs => (.ok (), fs)
  | i :: rest, fs =>
    match getFile fs (chunkPath base file_id i) with
    | none =>
      (.error (.IoError ("No such file or directory (os error 2): " ++
        chunkPath base file_id i)), fs)
    | some chunk_bytes =>
      let fs1 := setFile fs dest ((getFile fs dest).getD [] ++ chunk_bytes)
      let fs2 := removeFile fs1 (chunkPath base file_id i)
      assembleFrom base file_id dest rest fs2

/-- The `is_last_chunk` branch of `call`: scan for a missing chunk, then
create the destination file and fold every chunk into it.  `fs1` is the
filesystem after the current request's own chunk write. -/
def finalize (base file_id file_name : String) (total_chunks : Nat)
    (fs1 : FS) : Except SliceBreadServerError SBResponse × FS :=
  match scanMissing fs1 base file_id (List.range total_chunks) with
  | some i => (.error (.BadRequest ("Missing chunk: " ++ Nat.repr i)), fs1)
  | none =>
    let dest := destPath base file_id file_name
    let fs2 := setFile fs1 dest []
    match assembleFrom base file_id dest (List.range total_chunks) fs2 with
    | (.error e, fs3) => (.error e, fs3)
    | (.ok _, fs3) => (.ok successResponse, fs3)

/-- Mirrors `SliceBreadServer::call`.  The body is collected first; then
the four headers are read and parsed; then `chunk_index > total_chunks`
and `total_chunks == 0` are rejected; then the upload directory is
ensured (directories are not tracked in the file map and their creation is
modelled as succeeding) and the chunk body is written; finally, when
`chunk_index == total_chunks - 1`, assembly runs. -/
def call (base_files_dir : String) (fs : FS) (req : Request) :
    Except SliceBreadServerError SBResponse × FS :=
  match req.body with
  | .error e => (.error (.InternalServerError ("Failed to read body: " ++ e)), fs)
  | .ok body =>
    match parseMeta req.headers with
    | .error e => (.error e, fs)
    | .ok (file_id, chunk_index, total_chunks, file_name) =>
      if chunk_index > total_chunks then
        (.error (.BadRequest ("Invalid " ++ HEADER_CHUNK_INDEX ++ ": " ++
          Nat.repr chunk_index ++ " > " ++ HEADER_TOTAL_CHUNKS ++ ": " ++
          Nat.repr total_chunks)), fs)
      else if total_chunks = 0 then
        (.error (.BadRequest "Total chunks must be at least 1"), fs)
      else
        let fs1 := setFile fs (chunkPath base_files_dir file_id chunk_index) body
        if chunk_index = total_chunks - 1 then
          finalize base_files_dir file_id file_name total_chunks fs1
        else
          (.ok successResponse, fs1)

/-- File name component of the chunk file for index `i`. -/
def chunkName (i : Nat) : String := "chunk_" ++ Nat.repr i ++ ".bin"

def runSeq (base : String) (reqf : Nat → Request) (fs : FS) : Nat → FS
  | 0 => fs
  | k + 1 => (call base (runSeq base reqf fs k) (reqf k)).2

def runSeqOk (base : String) (reqf : Nat → Request) (fs : FS) : Nat → Bool
  | 0 => true
  | k + 1 =>
    runSeqOk base reqf fs k &&
      (call base (runSeq base reqf fs k) (reqf k)).1.isOk

/-! ### Theorems -/

theorem getFile_removeFile_self (fs : FS) (p : String) :
    getFile (removeFile fs p) p = none := by
  induction fs with
  | nil => rfl
  | cons e rest ih =>
    obtain ⟨q, v⟩ := e
    by_cases h : q = p
    · simpa [removeFile, h] using ih
    · simpa [removeFile, getFile, h] using ih

theorem getFile_removeFile_ne (fs : FS) (p q : String) (h : q ≠ p) :
    getFile (removeFile fs p) q = getFile fs q := by
  induction fs with
  | nil => rfl
  | cons e rest ih =>
    obtain ⟨r, v⟩ := e
    by_cases hr : r = p
    · have hrq : ¬r = q := fun hq => h (hr ▸ hq.symm)
      simp only [removeFile, if_pos hr, getFile, if_neg hrq]
      exact ih
    · by_cases hq : r = q
      · simp only [removeFile, if_neg hr, getFile, if_pos hq]
      · simp only [removeFile, if_neg hr, getFile, if_neg hq]
        exact ih

theorem getFile_setFile_self (fs : FS) (p : String) (v : Body) :
    getFile (setFile fs p v) p = some v := by
  simp [setFile, getFile]

theorem getFile_setFile_ne (fs : FS) (p : String) (v : Body) (q : String)
    (h : q ≠ p) : getFile (setFile fs p v) q = getFile fs q := by
  have hp : ¬p = q := fun e => h e.symm
  simp only [setFile, getFile, if_neg hp]
  exact getFile_removeFile_ne fs p q h

theorem removeFile_removeFile_self (fs : FS) (p : String) :
    removeFile (removeFile fs p) p = removeFile fs p := by
  induction fs with
  | nil => rfl
  | cons e rest ih =>
    obtain ⟨q, v⟩ := e
    by_cases h : q = p
    · simp [removeFile, h, ih]
    · simp [removeFile, h, ih]

theorem setFile_setFile_self (fs : FS) (p : String) (a b : Body) :
    setFile (setFile fs p a) p b = setFile fs p b := by
  simp [setFile, removeFile, removeFile_removeFile_self]

theorem toDigitsCore_eq_toDigitsRec (fuel n : Nat) (acc : List Char)
    (h : n < fuel) :
    Nat.toDigitsCore 10 fuel n acc = toDigitsRec n ++ acc := by
  induction fuel generalizing n acc with
  | zero => omega
  | succ f ih =>
    rw [Nat.toDigitsCore]
    by_cases h10 : n / 10 = 0
    · rw [if_pos h10, toDigitsRec, dif_pos h10]
      have hn : n % 10 = n := Nat.mod_eq_of_lt (by omega)
      simp [hn]
    · have hlt : n / 10 < n := Nat.div_lt_self (by omega) (by decide)
      rw [if_neg h10, ih _ _ (by omega)]
      conv_rhs => rw [toDigitsRec]
      rw [dif_neg h10]
      simp

theorem repr_eq_toDigitsRec (n : Nat) :
    Nat.repr n = String.mk (toDigitsRec n) := by
  unfold Nat.repr Nat.toDigits
  rw [toDigitsCore_eq_toDigitsRec _ _ _ (Nat.lt_succ_self n)]
  simp [List.asString]

theorem digitsVal_append_singleton (l : List Char) (c : Char) :
    digitsVal (l ++ [c]) = digitsVal l * 10 + (c.toNat - 48) := by
  simp [digitsVal, List.foldl_append]

theorem digitChar_toNat_sub (d : Nat) (h : d < 10) :
    (Nat.digitChar d).toNat - 48 = d := by
  interval_cases d <;> rfl

theorem digitsVal_toDigitsRec (n : Nat) : digitsVal (toDigitsRec n) = n := by
  induction n using Nat.strong_induction_on with
  | _ n ih =>
    rw [toDigitsRec]
    by_cases h10 : n / 10 = 0
    · have hn : n < 10 := (Nat.div_eq_zero_iff (by decide)).mp h10
      rw [dif_pos h10]
      simpa [digitsVal] using digitChar_toNat_sub n hn
    · have hlt : n / 10 < n := Nat.div_lt_self (by omega) (by decide)
      rw [dif_neg h10, digitsVal_append_singleton, ih _ hlt,
        digitChar_toNat_sub _ (Nat.mod_lt n (by decide))]
      omega

theorem repr_injective : Function.Injective Nat.repr := by
  intro m n h
  rw [repr_eq_toDigitsRec, repr_eq_toDigitsRec] at h
  have hd : toDigitsRec m = toDigitsRec n := by
    injection h
  calc m = digitsVal (toDigitsRec m) := (digitsVal_toDigitsRec m).symm
    _ = digitsVal (toDigitsRec n) := by rw [hd]
    _ = n := digitsVal_toDigitsRec n

theorem repr_inj (m n : Nat) : Nat.repr m = Nat.repr n ↔ m = n :=
  ⟨fun h => repr_injective h, fun h => h ▸ rfl⟩

theorem string_data_inj (s t : String) (h : s.data = t.data) : s = t := by
  cases s
  cases t
  simp_all

theorem string_append_cancel_left (p : String) (s t : String)
    (h : p ++ s = p ++ t) : s = t := by
  apply string_data_inj
  have hd : p.data ++ s.data = p.data ++ t.data := by
    rw [← String.data_append, ← String.data_append, h]
  exact List.append_cancel_left hd

theorem string_append_cancel_right (p : String) (s t : String)
    (h : s ++ p = t ++ p) : s = t := by
  apply string_data_inj
  have hd : s.data ++ p.data = t.data ++ p.data := by
    rw [← String.data_append, ← String.data_append, h]
  exact List.append_cancel_right hd

theorem chunkPath_eq (b f : String) (i : Nat) :
    chunkPath b f i = (b ++ "/" ++ f ++ "/") ++ chunkName i := by
  have hsplit : ("/chunk_" : String) = "/" ++ "chunk_" := rfl
  simp only [chunkPath, chunkName, hsplit, String.append_assoc]

theorem destPath_eq (b f fn : String) :
    destPath b f fn = (b ++ "/" ++ f ++ "/") ++ fn := rfl

theorem chunkPath_inj (b f : String) (i j : Nat) :
    chunkPath b f i = chunkPath b f j ↔ i = j := by
  constructor
  · intro h
    rw [chunkPath_eq, chunkPath_eq] at h
    have h1 := string_append_cancel_left _ _ _ h
    rw [chunkName, chunkName, String.append_assoc, String.append_assoc] at h1
    have h2 := string_append_cancel_left _ _ _ h1
    have h3 := string_append_cancel_right _ _ _ h2
    exact repr_injective h3
  · intro h
    rw [h]

theorem destPath_eq_chunkPath_iff (b f fn : String) (i : Nat) :
    destPath b f fn = chunkPath b f i ↔ fn = chunkName i := by
  rw [chunkPath_eq, destPath_eq]
  constructor
  · exact fun h => string_append_cancel_left _ _ _ h
  · intro h
    rw [h]

theorem call_body_error (base : String) (fs : FS) (req : Request) (e : String)
    (h : req.body = .error e) :
    call base fs req =
      (.error (.InternalServerError ("Failed to read body: " ++ e)), fs) := by
  simp [call, h]

theorem call_meta_error (base : String) (fs : FS) (req : Request) (body : Body)
    (err : SliceBreadServerError) (hb : req.body = .ok body)
    (hm : parseMeta req.headers = .error err) :
    call base fs req = (.error err, fs) := by
  simp [call, hb, hm]

theorem call_invalid_index (base : String) (fs : FS) (req : Request)
    (body : Body) (fid : String) (ci tc : Nat) (fn : String)
    (hb : req.body = .ok body)
    (hm : parseMeta req.headers = .ok (fid, ci, tc, fn)) (hgt : ci > tc) :
    call base fs req =
      (.error (.BadRequest ("Invalid " ++ HEADER_CHUNK_INDEX ++ ": " ++
        Nat.repr ci ++ " > " ++ HEADER_TOTAL_CHUNKS ++ ": " ++
        Nat.repr tc)), fs) := by
  simp [call, hb, hm, hgt]

theorem call_total_zero (base : String) (fs : FS) (req : Request)
    (body : Body) (fid : String) (ci : Nat) (fn : String)
    (hb : req.body = .ok body)
    (hm : parseMeta req.headers = .ok (fid, ci, 0, fn)) (hle : ¬ci > 0) :
    call base fs req =
      (.error (.BadRequest "Total chunks must be at least 1"), fs) := by
  simp [call, hb, hm, hle]

theorem call_nonlast (base : String) (fs : FS) (req : Request)
    (body : Body) (fid : String) (ci tc : Nat) (fn : String)
    (hb : req.body = .ok body)
    (hm : parseMeta req.headers = .ok (fid, ci, tc, fn))
    (hle : ci ≤ tc) (h0 : tc ≠ 0) (hnl : ci ≠ tc - 1) :
    call base fs req = (.ok successResponse, setFile fs (chunkPath base fid ci) body) := by
  have hgt : ¬ci > tc := by omega
  simp [call, hb, hm, hgt, h0, hnl]

theorem call_last (base : String) (fs : FS) (req : Request)
    (body : Body) (fid : String) (ci tc : Nat) (fn : String)
    (hb : req.body = .ok body)
    (hm : parseMeta req.headers = .ok (fid, ci, tc, fn))
    (hle : ci ≤ tc) (h0 : tc ≠ 0) (hl : ci = tc - 1) :
    call base fs req =
      finalize base fid fn tc (setFile fs (chunkPath base fid ci) body) := by
  have hgt : ¬ci > tc := by omega
  simp [call, hb, hm, hgt, h0, hl]

theorem scanMissing_none_iff (fs : FS) (b f : String) (l : List Nat) :
    scanMissing fs b f l = none ↔
      ∀ i ∈ l, existsFile fs (chunkPath b f i) = true := by
  induction l with
  | nil => simp [scanMissing]
  | cons i rest ih =>
    by_cases h : existsFile fs (chunkPath b f i)
    · simp [scanMissing, h, ih]
    · simp [scanMissing, h]

theorem scanMissing_range'_some (fs : FS) (b f : String) :
    ∀ (n s m : Nat), scanMissing fs b f (List.range' s n) = some m →
      s ≤ m ∧ m < s + n ∧ existsFile fs (chunkPath b f m) = false ∧
        ∀ j, s ≤ j → j < m → existsFile fs (chunkPath b f j) = true := by
  intro n
  induction n with
  | zero => intro s m h; simp [scanMissing] at h
  | succ n ih =>
    intro s m h
    rw [show List.range' s (n + 1) = s :: List.range' (s + 1) n from rfl] at h
    by_cases hs : existsFile fs (chunkPath b f s)
    · rw [scanMissing, if_pos hs] at h
      obtain ⟨h1, h2, h3, h4⟩ := ih (s + 1) m h
      refine ⟨by omega, by omega, h3, fun j hj1 hj2 => ?_⟩
      by_cases hjs : j = s
      · exact hjs ▸ hs
      · exact h4 j (by omega) hj2
    · rw [scanMissing, if_neg hs] at h
      obtain rfl : s = m := by injection h
      exact ⟨le_refl s, by omega, by simpa using hs, fun j hj1 hj2 => by omega⟩

theorem scanMissing_range_some (fs : FS) (b f : String) (tc m : Nat)
    (h : scanMissing fs b f (List.range tc) = some m) :
    m < tc ∧ existsFile fs (chunkPath b f m) = false ∧
      ∀ j, j < m → existsFile fs (chunkPath b f j) = true := by
  rw [List.range_eq_range'] at h
  obtain ⟨h1, h2, h3, h4⟩ := scanMissing_range'_some fs b f tc 0 m h
  exact ⟨by omega, h3, fun j hj => h4 j (Nat.zero_le j) hj⟩

theorem assembleFrom_spec (b f dest : String) (bf : Nat → Body) :
    ∀ (l : List Nat) (fs : FS) (acc : Body),
      (∀ i ∈ l, getFile fs (chunkPath b f i) = some (bf i)) →
      getFile fs dest = some acc →
      (∀ i ∈ l, dest ≠ chunkPath b f i) →
      l.Nodup →
      (assembleFrom b f dest l fs).1 = .ok () ∧
      getFile (assembleFrom b f dest l fs).2 dest =
        some (acc ++ (l.map bf).flatten) ∧
      (∀ i ∈ l, getFile (assembleFrom b f dest l fs).2 (chunkPath b f i) = none) ∧
      (∀ p, p ≠ dest → (∀ i ∈ l, p ≠ chunkPath b f i) →
        getFile (assembleFrom b f dest l fs).2 p = getFile fs p) := by
  intro l
  induction l with
  | nil =>
    intro fs acc hmem hdest hne hnodup
    refine ⟨rfl, ?_, by simp, fun p hp hpc => rfl⟩
    simpa [assembleFrom] using hdest
  | cons i rest ih =>
    intro fs acc hmem hdest hne hnodup
    have hi : getFile fs (chunkPath b f i) = some (bf i) := hmem i (by simp)
    have hdi : dest ≠ chunkPath b f i := hne i (by simp)
    have hinotrest : i ∉ rest := (List.nodup_cons.mp hnodup).1
    have hrestnodup : rest.Nodup := (List.nodup_cons.mp hnodup).2
    have hstep : assembleFrom b f dest (i :: rest) fs =
        assembleFrom b f dest rest
          (removeFile (setFile fs dest (acc ++ bf i)) (chunkPath b f i)) := by
      rw [assembleFrom, hi, hdest]
      rfl
    set fs2 : FS := removeFile (setFile fs dest (acc ++ bf i)) (chunkPath b f i)
      with hfs2
    have hdest2 : getFile fs2 dest = some (acc ++ bf i) := by
      rw [hfs2, getFile_removeFile_ne _ _ _ hdi, getFile_setFile_self]
    have hmem2 : ∀ j ∈ rest, getFile fs2 (chunkPath b f j) = some (bf j) := by
      intro j hj
      have hji : chunkPath b f j ≠ chunkPath b f i := by
        rw [Ne, chunkPath_inj]
        intro hji
        exact hinotrest (hji ▸ hj)
      have hjd : chunkPath b f j ≠ dest := fun h => (hne j (by simp [hj])) h.symm
      rw [hfs2, getFile_removeFile_ne _ _ _ hji, getFile_setFile_ne _ _ _ _ hjd]
      exact hmem j (by simp [hj])
    have hne2 : ∀ j ∈ rest, dest ≠ chunkPath b f j :=
      fun j hj => hne j (by simp [hj])
    obtain ⟨hok, hdestF, hchunksF, hframeF⟩ :=
      ih fs2 (acc ++ bf i) hmem2 hdest2 hne2 hrestnodup
    refine ⟨by rw [hstep]; exact hok, ?_, ?_, ?_⟩
    · rw [hstep, hdestF]
      simp
    · intro j hj
      rcases List.mem_cons.mp hj with rfl | hj
      · rw [hstep]
        have hji : ∀ k ∈ rest, chunkPath b f j ≠ chunkPath b f k := by
          intro k hk
          rw [Ne, chunkPath_inj]
          intro hjk
          exact hinotrest (hjk ▸ hk)
        have hjd : chunkPath b f j ≠ dest := fun h => hdi h.symm
        rw [hframeF _ hjd hji, hfs2, getFile_removeFile_self]
      · rw [hstep]
        exact hchunksF j hj
    · intro p hp hpc
      rw [hstep, hframeF p hp (fun k hk => hpc k (by simp [hk])), hfs2,
        getFile_removeFile_ne _ _ _ (hpc i (by simp)),
        getFile_setFile_ne _ _ _ _ hp]

/-- Full behaviour of `finalize` when every chunk file is present and the
destination name is not itself a chunk file name. -/
theorem finalize_success (b fid fn : String) (tc : Nat) (fs1 : FS)
    (bf : Nat → Body)
    (hmem : ∀ i, i < tc → getFile fs1 (chunkPath b fid i) = some (bf i))
    (halias : ∀ i, i < tc → fn ≠ chunkName i) :
    ∃ fsF, finalize b fid fn tc fs1 = (.ok successResponse, fsF) ∧
      getFile fsF (destPath b fid fn) =
        some (((List.range tc).map bf).flatten) ∧
      (∀ i, i < tc → getFile fsF (chunkPath b fid i) = none) ∧
      (∀ p, p ≠ destPath b fid fn → (∀ i, i < tc → p ≠ chunkPath b fid i) →
        getFile fsF p = getFile fs1 p) := by
  have hscan : scanMissing fs1 b fid (List.range tc) = none := by
    rw [scanMissing_none_iff]
    intro i hi
    rw [List.mem_range] at hi
    simp [existsFile, hmem i hi]
  have hne : ∀ i ∈ List.range tc, destPath b fid fn ≠ chunkPath b fid i := by
    intro i hi
    rw [List.mem_range] at hi
    rw [Ne, destPath_eq_chunkPath_iff]
    exact halias i hi
  have hmem2 : ∀ i ∈ List.range tc,
      getFile (setFile fs1 (destPath b fid fn) []) (chunkPath b fid i) =
        some (bf i) := by
    intro i hi
    have hid : chunkPath b fid i ≠ destPath b fid fn :=
      fun h => (hne i hi) h.symm
    rw [getFile_setFile_ne _ _ _ _ hid]
    rw [List.mem_range] at hi
    exact hmem i hi
  obtain ⟨hok, hdestF, hchunkF, hframeF⟩ :=
    assembleFrom_spec b fid (destPath b fid fn) bf (List.range tc)
      (setFile fs1 (destPath b fid fn) []) [] hmem2
      (getFile_setFile_self _ _ _) hne (List.nodup_range tc)
  rcases hA : assembleFrom b fid (destPath b fid fn) (List.range tc)
      (setFile fs1 (destPath b fid fn) []) with ⟨res, fsF⟩
  rw [hA] at hok hdestF hchunkF hframeF
  refine ⟨fsF, ?_, by simpa using hdestF, ?_, ?_⟩
  · rw [finalize, hscan]
    simp only [hA]
    simp at hok
    rw [hok]
  · intro i hi
    exact hchunkF i (List.mem_range.mpr hi)
  · intro p hp hpc
    rw [hframeF p hp (fun i hi => hpc i (List.mem_range.mp hi)),
      getFile_setFile_ne _ _ _ _ hp]

/-- Whenever `finalize` succeeds it produces the single success
response. -/
theorem finalize_ok_response (b f fn : String) (tc : Nat) (fs1 : FS)
    (r : SBResponse) (fs2 : FS)
    (h : finalize b f fn tc fs1 = (.ok r, fs2)) : r = successResponse := by
  simp only [finalize] at h
  rcases hscan : scanMissing fs1 b f (List.range tc) with _ | i
  · rw [hscan] at h
    rcases hA : assembleFrom b f (destPath b f fn) (List.range tc)
        (setFile fs1 (destPath b f fn) []) with ⟨res, fs3⟩
    rw [hA] at h
    cases res with
    | error e => simp at h
    | ok u =>
      simp only [Prod.mk.injEq] at h
      exact (Except.ok.inj h.1).symm
  · rw [hscan] at h
    simp at h

/-- State after the first `k` chunk uploads of a well-formed sequential
upload: every request so far succeeded, chunk files `0..k-1` hold the
uploaded bodies, and nothing else changed. -/
theorem runSeq_prefix (base fid fn : String) (N : Nat) (bf : Nat → Body)
    (reqf : Nat → Request) (fs0 : FS) (hN : 1 ≤ N)
    (hreq : ∀ k, k < N → parseMeta (reqf k).headers = .ok (fid, k, N, fn) ∧
      (reqf k).body = .ok (bf k)) :
    ∀ k, k ≤ N - 1 →
      runSeqOk base reqf fs0 k = true ∧
      (∀ j, j < k →
        getFile (runSeq base reqf fs0 k) (chunkPath base fid j) = some (bf j)) ∧
      (∀ p, (∀ j, j < k → p ≠ chunkPath base fid j) →
        getFile (runSeq base reqf fs0 k) p = getFile fs0 p) := by
  intro k
  induction k with
  | zero => exact fun _ => ⟨rfl, fun j hj => absurd hj (by omega), fun p _ => rfl⟩
  | succ k ih =>
    intro hk
    obtain ⟨hok, hchunks, hframe⟩ := ih (by omega)
    have hkN : k < N := by omega
    obtain ⟨hm, hb⟩ := hreq k hkN
    have hcall : call base (runSeq base reqf fs0 k) (reqf k) =
        (.ok successResponse,
          setFile (runSeq base reqf fs0 k) (chunkPath base fid k) (bf k)) :=
      call_nonlast _ _ _ _ _ _ _ _ hb hm (by omega) (by omega) (by omega)
    refine ⟨?_, ?_, ?_⟩
    · rw [runSeqOk, hok, hcall]
      rfl
    · intro j hj
      rw [runSeq, hcall]
      by_cases hjk : j = k
      · subst hjk
        exact getFile_setFile_self _ _ _
      · have hne : chunkPath base fid j ≠ chunkPath base fid k := by
          rw [Ne, chunkPath_inj]
          exact hjk
        rw [getFile_setFile_ne _ _ _ _ hne]
        exact hchunks j (by omega)
    · intro p hp
      rw [runSeq, hcall, getFile_setFile_ne _ _ _ _ (hp k (by omega))]
      exact hframe p (fun j hj => hp j (by omega))

/-- C1 counterexample: `total_chunks = 1` with the valid (non-empty)
file name `"chunk_0.bin"` and body `[7]`, sent as the single chunk of an
upload.  The claim demands a destination file at
`(base_dir, upload_id, file_name)` whose bytes equal the chunk body, but
the destination path coincides with the chunk path, so `File::create`
truncates the just-written chunk before it is read back and the final
`remove_file` deletes the assembled file itself: the request reports
success yet no destination file exists. -/
theorem C1_counterexample :
    (call "b" []
      { headers := [(HEADER_FILE_ID, "u"), (HEADER_CHUNK_INDEX, "0"),
          (HEADER_TOTAL_CHUNKS, "1"), (HEADER_FILE_NAME, "chunk_0.bin")],
        body := .ok [7] }).1 = .ok successResponse ∧
    getFile (call "b" []
      { headers := [(HEADER_FILE_ID, "u"), (HEADER_CHUNK_INDEX, "0"),
          (HEADER_TOTAL_CHUNKS, "1"), (HEADER_FILE_NAME, "chunk_0.bin")],
        body := .ok [7] }).2 (destPath "b" "u" "chunk_0.bin") ≠ some [7] := by
  exact ⟨rfl, by decide⟩

/-- C1 (amended): for every upload with valid metadata and
`total_chunks = N ≥ 1` whose chunks are sent in index order `0..N-1`,
provided the destination `file_name` is not itself of the form
`chunk_<i>.bin` for an index `i < N`, every request succeeds, the request
carrying index `N-1` assembles the destination file at
`(base_dir, upload_id, file_name)` whose bytes equal the concatenation of
the most recently stored chunk bodies in ascending index order, the
destination file's length equals the sum of the chunk lengths, and no
chunk files for the upload remain afterwards. -/
theorem C1_sequential_upload_assembles
    (base fid fn : String) (N : Nat) (bf : Nat → Body) (reqf : Nat → Request)
    (fs0 : FS) (hN : 1 ≤ N)
    (hreq : ∀ k, k < N → parseMeta (reqf k).headers = .ok (fid, k, N, fn) ∧
      (reqf k).body = .ok (bf k))
    (halias : ∀ i, i < N → fn ≠ chunkName i) :
    runSeqOk base reqf fs0 N = true ∧
    getFile (runSeq base reqf fs0 N) (destPath base fid fn) =
      some (((List.range N).map bf).flatten) ∧
    (∀ i, i < N → getFile (runSeq base reqf fs0 N) (chunkPath base fid i) = none) ∧
    (∀ bytes,
      getFile (runSeq base reqf fs0 N) (destPath base fid fn) = some bytes →
      bytes.length = (((List.range N).map bf).map List.length).sum) := by
  obtain ⟨M, rfl⟩ : ∃ M, N = M + 1 := ⟨N - 1, by omega⟩
  obtain ⟨hok, hchunks, hframe⟩ :=
    runSeq_prefix base fid fn (M + 1) bf reqf fs0 hN hreq M (by omega)
  obtain ⟨hm, hb⟩ := hreq M (by omega)
  have hcall0 : call base (runSeq base reqf fs0 M) (reqf M) =
      finalize base fid fn (M + 1)
        (setFile (runSeq base reqf fs0 M) (chunkPath base fid M) (bf M)) :=
    call_last _ _ _ _ _ _ _ _ hb hm (by omega) (by omega) (by omega)
  have hmem1 : ∀ i, i < M + 1 →
      getFile (setFile (runSeq base reqf fs0 M) (chunkPath base fid M) (bf M))
        (chunkPath base fid i) = some (bf i) := by
    intro i hi
    by_cases hiM : i = M
    · subst hiM
      exact getFile_setFile_self _ _ _
    · have hne : chunkPath base fid i ≠ chunkPath base fid M := by
        rw [Ne, chunkPath_inj]
        exact hiM
      rw [getFile_setFile_ne _ _ _ _ hne]
      exact hchunks i (by omega)
  obtain ⟨fsF, hfin, hdst, hchk, hfr⟩ :=
    finalize_success base fid fn (M + 1) _ bf hmem1 halias
  have hstep : runSeq base reqf fs0 (M + 1) = fsF := by
    rw [runSeq, hcall0, hfin]
  refine ⟨?_, ?_, ?_, ?_⟩
  · rw [runSeqOk, hok, hcall0, hfin]
    rfl
  · rw [hstep]
    exact hdst
  · intro i hi
    rw [hstep]
    exact hchk i hi
  · intro bytes hbytes
    rw [hstep, hdst] at hbytes
    obtain rfl : ((List.range (M + 1)).map bf).flatten = bytes := by
      injection hbytes
    exact List.length_flatten _

/-- Witness for C1: a two-chunk upload with bodies `[1, 2]` and `[3]`
produces the destination file `b/u/out.txt` with bytes `[1, 2, 3]`. -/
theorem C1_sequential_upload_assembles_witness :
    getFile (runSeq "b" (fun k =>
      { headers := [(HEADER_FILE_ID, "u"), (HEADER_CHUNK_INDEX, Nat.repr k),
          (HEADER_TOTAL_CHUNKS, "2"), (HEADER_FILE_NAME, "out.txt")],
        body := .ok (if k = 0 then [1, 2] else [3]) }) [] 2)
      (destPath "b" "u" "out.txt") = some [1, 2, 3] := by
  have h := (C1_sequential_upload_assembles "b" "u" "out.txt" 2
    (fun k => if k = 0 then [1, 2] else [3])
    (fun k =>
      { headers := [(HEADER_FILE_ID, "u"), (HEADER_CHUNK_INDEX, Nat.repr k),
          (HEADER_TOTAL_CHUNKS, "2"), (HEADER_FILE_NAME, "out.txt")],
        body := .ok (if k = 0 then [1, 2] else [3]) }) [] (by omega)
    (by intro k hk; interval_cases k <;> exact ⟨rfl, rfl⟩) (by decide)).2.1
  exact h.trans (by rfl)

/-- C2 counterexample: at the boundary `chunk_index == total_chunks`
(index `1`, total `1`) the claim demands a `BadRequest` and no filesystem
writes, but the source checks `chunk_index > total_chunks`, so the request
is accepted with 201 and the (never assembled) chunk file
`chunk_1.bin` is written. -/
theorem C2_counterexample :
    (call "b" []
      { headers := [(HEADER_FILE_ID, "u"), (HEADER_CHUNK_INDEX, "1"),
          (HEADER_TOTAL_CHUNKS, "1"), (HEADER_FILE_NAME, "f.txt")],
        body := .ok [5] }).1 = .ok successResponse ∧
    getFile (call "b" []
      { headers := [(HEADER_FILE_ID, "u"), (HEADER_CHUNK_INDEX, "1"),
          (HEADER_TOTAL_CHUNKS, "1"), (HEADER_FILE_NAME, "f.txt")],
        body := .ok [5] }).2 (chunkPath "b" "u" 1) = some [5] := by
  exact ⟨rfl, rfl⟩

/-- C2 (amended): for every request whose headers parse, if
`chunk_index > total_chunks` (strictly greater) the handler fails with a
`BadRequest` describing the invalid index/total relationship and performs
no filesystem writes; the boundary case `chunk_index == total_chunks`
passes this validation and stores a chunk file, even though the valid
index range is strictly less than `total_chunks`. -/
theorem C2_index_gt_total_rejected (base : String) (fs : FS) (req : Request)
    (body : Body) (fid : String) (ci tc : Nat) (fn : String)
    (hb : req.body = .ok body)
    (hm : parseMeta req.headers = .ok (fid, ci, tc, fn)) (hgt : ci > tc) :
    call base fs req =
      (.error (.BadRequest ("Invalid " ++ HEADER_CHUNK_INDEX ++ ": " ++
        Nat.repr ci ++ " > " ++ HEADER_TOTAL_CHUNKS ++ ": " ++
        Nat.repr tc)), fs) :=
  call_invalid_index base fs req body fid ci tc fn hb hm hgt

/-- Witness for C2: index `2`, total `1` yields the exact invalid-index
message of the source and leaves the filesystem untouched. -/
theorem C2_index_gt_total_rejected_witness :
    call "b" []
      { headers := [(HEADER_FILE_ID, "u"), (HEADER_CHUNK_INDEX, "2"),
          (HEADER_TOTAL_CHUNKS, "1"), (HEADER_FILE_NAME, "f.txt")],
        body := .ok [1] } =
      (.error (.BadRequest "Invalid X-Chunk-Index: 2 > X-Total-Chunks: 1"),
        []) := by
  have h := C2_index_gt_total_rejected "b" []
    { headers := [(HEADER_FILE_ID, "u"), (HEADER_CHUNK_INDEX, "2"),
        (HEADER_TOTAL_CHUNKS, "1"), (HEADER_FILE_NAME, "f.txt")],
      body := .ok [1] } [1] "u" 2 1 "f.txt" rfl rfl (by omega)
  exact h.trans (by rfl)

/-- C3 counterexample: a request whose body read fails and whose header
map is empty.  The claim requires `BadRequest("Missing header: X-File-Id")`
for a request missing a required header, but the source collects the body
before any metadata validation, so the result is the
`InternalServerError` wrapping the transport error instead. -/
theorem C3_counterexample :
    (call "b" [] { headers := [], body := .error "connection reset" }).1 =
      .error (.InternalServerError "Failed to read body: connection reset") ∧
    (call "b" [] { headers := [], body := .error "connection reset" }).1 ≠
      .error (.BadRequest ("Missing header: " ++ HEADER_FILE_ID)) :=
  ⟨rfl, fun h => SliceBreadServerError.noConfusion (Except.error.inj h)⟩

/-- C3 (amended): the request body is read before metadata validation: a
body-read transport failure is reported as an `InternalServerError`
wrapping the transport error regardless of the headers.  When the body
reads successfully, a request missing a required header fails with
`BadRequest("Missing header: <name>")` for the first missing field in the
order file id, chunk index, total chunks, file name — provided every
numeric field scanned before it parses — and the filesystem is left
untouched. -/
theorem C3_validation_order (base : String) (fs : FS) (req : Request) :
    (∀ e, req.body = .error e →
      call base fs req =
        (.error (.InternalServerError ("Failed to read body: " ++ e)), fs)) ∧
    (∀ body, req.body = .ok body →
      lookupHeader req.headers HEADER_FILE_ID = none →
      call base fs req =
        (.error (.BadRequest ("Missing header: " ++ HEADER_FILE_ID)), fs)) ∧
    (∀ body v, req.body = .ok body →
      lookupHeader req.headers HEADER_FILE_ID = some v →
      lookupHeader req.headers HEADER_CHUNK_INDEX = none →
      call base fs req =
        (.error (.BadRequest ("Missing header: " ++ HEADER_CHUNK_INDEX)), fs)) ∧
    (∀ body v w ci, req.body = .ok body →
      lookupHeader req.headers HEADER_FILE_ID = some v →
      lookupHeader req.headers HEADER_CHUNK_INDEX = some w →
      parseUsize w = some ci →
      lookupHeader req.headers HEADER_TOTAL_CHUNKS = none →
      call base fs req =
        (.error (.BadRequest ("Missing header: " ++ HEADER_TOTAL_CHUNKS)), fs)) ∧
    (∀ body v w ci x tc, req.body = .ok body →
      lookupHeader req.headers HEADER_FILE_ID = some v →
      lookupHeader req.headers HEADER_CHUNK_INDEX = some w →
      parseUsize w = some ci →
      lookupHeader req.headers HEADER_TOTAL_CHUNKS = some x →
      parseUsize x = some tc →
      lookupHeader req.headers HEADER_FILE_NAME = none →
      call base fs req =
        (.error (.BadRequest ("Missing header: " ++ HEADER_FILE_NAME)), fs)) := by
  refine ⟨fun e he => call_body_error base fs req e he, ?_, ?_, ?_, ?_⟩
  · intro body hb hfid
    refine call_meta_error base fs req body _ hb ?_
    simp [parseMeta, get_header, hfid, Bind.bind, Except.bind]
  · intro body v hb hfid hci
    refine call_meta_error base fs req body _ hb ?_
    simp [parseMeta, get_header, hfid, hci, parseString, Bind.bind, Except.bind]
  · intro body v w ci hb hfid hci hpci htc
    refine call_meta_error base fs req body _ hb ?_
    simp [parseMeta, get_header, hfid, hci, hpci, htc, parseString,
      Bind.bind, Except.bind]
  · intro body v w ci x tc hb hfid hci hpci htc hptc hfn
    refine call_meta_error base fs req body _ hb ?_
    simp [parseMeta, get_header, hfid, hci, hpci, htc, hptc, hfn, parseString,
      Bind.bind, Except.bind]

/-- Witness for C3: file id present, chunk index absent, total chunks
present — the first missing field in scan order (the chunk index) names
the error. -/
theorem C3_validation_order_witness :
    call "b" []
      { headers := [(HEADER_FILE_ID, "u"), (HEADER_TOTAL_CHUNKS, "3")],
        body := .ok [] } =
      (.error (.BadRequest ("Missing header: " ++ HEADER_CHUNK_INDEX)), []) :=
  (C3_validation_order "b" []
    { headers := [(HEADER_FILE_ID, "u"), (HEADER_TOTAL_CHUNKS, "3")],
      body := .ok [] }).2.2.1 [] "u" rfl rfl rfl

/-- C4 counterexample: in the ASSEMBLED state (destination file exists,
no chunk files) with `total_chunks = 1`, replaying the final chunk
(index `0`) does not fail with `Missing chunk`: the replayed request
rewrites `chunk_0.bin`, finds every chunk present, and silently
re-assembles, returning 201. -/
theorem C4_counterexample :
    (call "b" [(destPath "b" "u" "f.txt", [9])]
      { headers := [(HEADER_FILE_ID, "u"), (HEADER_CHUNK_INDEX, "0"),
          (HEADER_TOTAL_CHUNKS, "1"), (HEADER_FILE_NAME, "f.txt")],
        body := .ok [9] }).1 = .ok successResponse := by
  rfl

/-- C4 (amended): for every upload in the ASSEMBLED state and every
`total_chunks ≥ 2`, replaying the request for the final chunk index
`total_chunks - 1` fails with `BadRequest("Missing chunk: 0")` (the
replay's own chunk write cannot supply index 0) rather than recognizing
the upload as complete; for `total_chunks = 1` the replay instead
re-uploads and re-assembles successfully. -/
theorem C4_replay_after_assembly (base fid fn : String) (tc : Nat) (fs : FS)
    (req : Request) (body : Body)
    (hb : req.body = .ok body)
    (hm : parseMeta req.headers = .ok (fid, tc - 1, tc, fn))
    (h2 : 2 ≤ tc)
    (hchunk0 : getFile fs (chunkPath base fid 0) = none) :
    call base fs req =
      (.error (.BadRequest "Missing chunk: 0"),
        setFile fs (chunkPath base fid (tc - 1)) body) := by
  obtain ⟨t2, rfl⟩ : ∃ t2, tc = t2 + 1 := ⟨tc - 1, by omega⟩
  simp only [Nat.add_sub_cancel] at hm ⊢
  have hcall : call base fs req =
      finalize base fid fn (t2 + 1) (setFile fs (chunkPath base fid t2) body) :=
    call_last _ _ _ _ _ _ _ _ hb hm (by omega) (by omega) (by omega)
  have hne0 : chunkPath base fid 0 ≠ chunkPath base fid t2 := by
    rw [Ne, chunkPath_inj]
    omega
  have h0 : getFile (setFile fs (chunkPath base fid t2) body)
      (chunkPath base fid 0) = none := by
    rw [getFile_setFile_ne _ _ _ _ hne0]
    exact hchunk0
  have hscan : scanMissing (setFile fs (chunkPath base fid t2) body)
      base fid (List.range (t2 + 1)) = some 0 := by
    rw [List.range_eq_range',
      show List.range' 0 (t2 + 1) = 0 :: List.range' 1 t2 from rfl,
      scanMissing, if_neg (by simp [existsFile, h0])]
  rw [hcall, finalize, hscan]
  rfl

/-- Witness for C4: `total_chunks = 2`, empty filesystem (no chunk
files), replaying index `1` yields `Missing chunk: 0` and leaves only the
freshly rewritten `chunk_1.bin`. -/
theorem C4_replay_after_assembly_witness :
    call "b" []
      { headers := [(HEADER_FILE_ID, "w"), (HEADER_CHUNK_INDEX, "1"),
          (HEADER_TOTAL_CHUNKS, "2"), (HEADER_FILE_NAME, "g.txt")],
        body := .ok [3] } =
      (.error (.BadRequest "Missing chunk: 0"),
        setFile [] (chunkPath "b" "w" 1) [3]) := by
  have h := C4_replay_after_assembly "b" "w" "g.txt" 2 []
    { headers := [(HEADER_FILE_ID, "w"), (HEADER_CHUNK_INDEX, "1"),
        (HEADER_TOTAL_CHUNKS, "2"), (HEADER_FILE_NAME, "g.txt")],
      body := .ok [3] } [3] rfl rfl (by omega) rfl
  exact h.trans (by rfl)

/-- C5 counterexample: `total_chunks = 0` with `chunk_index = 1` is
rejected, but by the earlier index check, so the message is the
invalid-index one, not `"Total chunks must be at least 1"` as the claim
demands for every `chunk_index`. -/
theorem C5_counterexample :
    (call "b" []
      { headers := [(HEADER_FILE_ID, "u"), (HEADER_CHUNK_INDEX, "1"),
          (HEADER_TOTAL_CHUNKS, "0"), (HEADER_FILE_NAME, "f.txt")],
        body := .ok [1] }).1 =
      .error (.BadRequest "Invalid X-Chunk-Index: 1 > X-Total-Chunks: 0") ∧
    (call "b" []
      { headers := [(HEADER_FILE_ID, "u"), (HEADER_CHUNK_INDEX, "1"),
          (HEADER_TOTAL_CHUNKS, "0"), (HEADER_FILE_NAME, "f.txt")],
        body := .ok [1] }).1 ≠
      .error (.BadRequest "Total chunks must be at least 1") :=
  ⟨rfl, fun h => by
    have hmsg := SliceBreadServerError.BadRequest.inj (Except.error.inj h)
    exact absurd hmsg (by decide)⟩

/-- C5 (amended): for every request whose headers parse and which carries
`total_chunks = 0`, the handler fails with a `BadRequest` independent of
the `chunk_index` value and touches no files, but the message is
`"Total chunks must be at least 1"` only when `chunk_index = 0`; for
`chunk_index > 0` the earlier index check fires first with its
invalid-index message. -/
theorem C5_total_zero_rejected (base : String) (fs : FS) (req : Request)
    (body : Body) (fid : String) (ci : Nat) (fn : String)
    (hb : req.body = .ok body)
    (hm : parseMeta req.headers = .ok (fid, ci, 0, fn)) :
    call base fs req =
      (.error (.BadRequest (if 0 < ci then
        "Invalid " ++ HEADER_CHUNK_INDEX ++ ": " ++ Nat.repr ci ++ " > " ++
          HEADER_TOTAL_CHUNKS ++ ": " ++ Nat.repr 0
        else "Total chunks must be at least 1")), fs) := by
  by_cases hci : 0 < ci
  · rw [if_pos hci]
    exact call_invalid_index base fs req body fid ci 0 fn hb hm hci
  · rw [if_neg hci]
    exact call_total_zero base fs req body fid ci fn hb hm hci

/-- Witness for C5: `chunk_index = 0`, `total_chunks = 0` produces the
dedicated message. -/
theorem C5_total_zero_rejected_witness :
    call "b" []
      { headers := [(HEADER_FILE_ID, "u"), (HEADER_CHUNK_INDEX, "0"),
          (HEADER_TOTAL_CHUNKS, "0"), (HEADER_FILE_NAME, "f.txt")],
        body := .ok [1] } =
      (.error (.BadRequest "Total chunks must be at least 1"), []) := by
  have h := C5_total_zero_rejected "b" []
    { headers := [(HEADER_FILE_ID, "u"), (HEADER_CHUNK_INDEX, "0"),
        (HEADER_TOTAL_CHUNKS, "0"), (HEADER_FILE_NAME, "f.txt")],
      body := .ok [1] } [1] "u" 0 "f.txt" rfl rfl
  exact h.trans (by rfl)

/-- C6: a finalizing request (`chunk_index = total_chunks - 1`) whose
post-write existence scan finds a missing index fails with
`BadRequest("Missing chunk: <index>")` naming the smallest missing index,
performs no assembly and no deletion (the filesystem is exactly the prior
state plus the request's own chunk write), and leaves every previously
written chunk file in place. -/
theorem C6_missing_chunk_on_finalize (base : String) (fs : FS) (req : Request)
    (body : Body) (fid : String) (tc m : Nat) (fn : String)
    (hb : req.body = .ok body)
    (hm : parseMeta req.headers = .ok (fid, tc - 1, tc, fn))
    (h0 : tc ≠ 0)
    (hscan : scanMissing (setFile fs (chunkPath base fid (tc - 1)) body)
      base fid (List.range tc) = some m) :
    call base fs req =
      (.error (.BadRequest ("Missing chunk: " ++ Nat.repr m)),
        setFile fs (chunkPath base fid (tc - 1)) body) ∧
    m < tc ∧
    existsFile (setFile fs (chunkPath base fid (tc - 1)) body)
      (chunkPath base fid m) = false ∧
    (∀ j, j < m →
      existsFile (setFile fs (chunkPath base fid (tc - 1)) body)
        (chunkPath base fid j) = true) ∧
    (∀ p, p ≠ chunkPath base fid (tc - 1) →
      getFile (call base fs req).2 p = getFile fs p) := by
  have hcall : call base fs req =
      finalize base fid fn tc (setFile fs (chunkPath base fid (tc - 1)) body) :=
    call_last _ _ _ _ _ _ _ _ hb hm (by omega) h0 rfl
  obtain ⟨hmlt, hmiss, hsmall⟩ := scanMissing_range_some _ _ _ _ _ hscan
  have heq : call base fs req =
      (.error (.BadRequest ("Missing chunk: " ++ Nat.repr m)),
        setFile fs (chunkPath base fid (tc - 1)) body) := by
    rw [hcall, finalize, hscan]
  refine ⟨heq, hmlt, hmiss, hsmall, ?_⟩
  intro p hp
  rw [heq]
  exact getFile_setFile_ne _ _ _ _ hp

/-- Witness for C6: two chunks expected, only the final one (index `1`)
ever sent; the finalizing request fails naming chunk `0` and the
filesystem keeps the fresh `chunk_1.bin`. -/
theorem C6_missing_chunk_on_finalize_witness :
    call "b" []
      { headers := [(HEADER_FILE_ID, "v"), (HEADER_CHUNK_INDEX, "1"),
          (HEADER_TOTAL_CHUNKS, "2"), (HEADER_FILE_NAME, "h.txt")],
        body := .ok [4] } =
      (.error (.BadRequest "Missing chunk: 0"),
        setFile [] (chunkPath "b" "v" 1) [4]) := by
  have h := (C6_missing_chunk_on_finalize "b" []
    { headers := [(HEADER_FILE_ID, "v"), (HEADER_CHUNK_INDEX, "1"),
        (HEADER_TOTAL_CHUNKS, "2"), (HEADER_FILE_NAME, "h.txt")],
      body := .ok [4] } [4] "v" 2 0 "h.txt" rfl rfl (by omega) (by rfl)).1
  exact h.trans (by rfl)

/-- C7: for every request that passes validation, a success is always
HTTP 201 with the one confirmation body, identically for intermediate and
final chunks; the finalization path (`finalize`: existence scan and
assembly) is entered exactly when `chunk_index = total_chunks - 1`,
regardless of which earlier chunks have arrived, while every other index
only stores its chunk file. -/
theorem C7_success_response_uniform (base : String) (fs : FS) (req : Request)
    (body : Body) (fid : String) (ci tc : Nat) (fn : String)
    (hb : req.body = .ok body)
    (hm : parseMeta req.headers = .ok (fid, ci, tc, fn))
    (hle : ci ≤ tc) (h0 : tc ≠ 0) :
    (∀ r fs2, call base fs req = (.ok r, fs2) → r = successResponse) ∧
    (ci ≠ tc - 1 →
      call base fs req =
        (.ok successResponse, setFile fs (chunkPath base fid ci) body)) ∧
    (ci = tc - 1 →
      call base fs req =
        finalize base fid fn tc (setFile fs (chunkPath base fid ci) body)) := by
  refine ⟨?_, fun hnl => call_nonlast _ _ _ _ _ _ _ _ hb hm hle h0 hnl,
    fun hl => call_last _ _ _ _ _ _ _ _ hb hm hle h0 hl⟩
  intro r fs2 hr
  by_cases hl : ci = tc - 1
  · rw [call_last _ _ _ _ _ _ _ _ hb hm hle h0 hl] at hr
    exact finalize_ok_response _ _ _ _ _ _ _ hr
  · rw [call_nonlast _ _ _ _ _ _ _ _ hb hm hle h0 hl] at hr
    have hpair := (Prod.mk.injEq _ _ _ _).mp hr
    exact (Except.ok.inj hpair.1).symm

/-- Witness for C7: an intermediate chunk (index `0` of `2`) returns the
uniform 201 response and only stores its chunk file. -/
theorem C7_success_response_uniform_witness :
    call "b" []
      { headers := [(HEADER_FILE_ID, "u"), (HEADER_CHUNK_INDEX, "0"),
          (HEADER_TOTAL_CHUNKS, "2"), (HEADER_FILE_NAME, "f.txt")],
        body := .ok [1] } =
      (.ok successResponse, setFile [] (chunkPath "b" "u" 0) [1]) :=
  (C7_success_response_uniform "b" []
    { headers := [(HEADER_FILE_ID, "u"), (HEADER_CHUNK_INDEX, "0"),
        (HEADER_TOTAL_CHUNKS, "2"), (HEADER_FILE_NAME, "f.txt")],
      body := .ok [1] } [1] "u" 0 2 "f.txt" rfl rfl (by omega)
    (by omega)).2.1 (by omega)

/-- C8: resending the same `(upload_id, chunk_index)` before finalization
fully replaces the stored bytes for that index: after the second request
the filesystem is exactly as if only the second body had been stored, so
the chunk file holds the most recently received body (and any later
assembly reads that body, not the first). -/
theorem C8_last_write_wins (base : String) (fs : FS) (r1 r2 : Request)
    (b1 b2 : Body) (fid : String) (ci tc : Nat) (fn : String)
    (hb1 : r1.body = .ok b1)
    (hm1 : parseMeta r1.headers = .ok (fid, ci, tc, fn))
    (hb2 : r2.body = .ok b2)
    (hm2 : parseMeta r2.headers = .ok (fid, ci, tc, fn))
    (hle : ci ≤ tc) (h0 : tc ≠ 0) (hnl : ci ≠ tc - 1) :
    (call base (call base fs r1).2 r2).2 =
      setFile fs (chunkPath base fid ci) b2 ∧
    getFile (call base (call base fs r1).2 r2).2 (chunkPath base fid ci) =
      some b2 := by
  have h1 := call_nonlast base fs r1 b1 fid ci tc fn hb1 hm1 hle h0 hnl
  have h2 := call_nonlast base (call base fs r1).2 r2 b2 fid ci tc fn
    hb2 hm2 hle h0 hnl
  have hfs : (call base (call base fs r1).2 r2).2 =
      setFile fs (chunkPath base fid ci) b2 := by
    rw [h2, h1]
    exact setFile_setFile_self _ _ _ _
  exact ⟨hfs, by rw [hfs]; exact getFile_setFile_self _ _ _⟩

/-- Witness for C8: storing `[1]` then `[2]` at index `0` of `3` leaves
the chunk file holding `[2]`. -/
theorem C8_last_write_wins_witness :
    getFile (call "b" (call "b" []
      { headers := [(HEADER_FILE_ID, "u"), (HEADER_CHUNK_INDEX, "0"),
          (HEADER_TOTAL_CHUNKS, "3"), (HEADER_FILE_NAME, "f.txt")],
        body := .ok [1] }).2
      { headers := [(HEADER_FILE_ID, "u"), (HEADER_CHUNK_INDEX, "0"),
          (HEADER_TOTAL_CHUNKS, "3"), (HEADER_FILE_NAME, "f.txt")],
        body := .ok [2] }).2 (chunkPath "b" "u" 0) = some [2] :=
  (C8_last_write_wins "b" []
    { headers := [(HEADER_FILE_ID, "u"), (HEADER_CHUNK_INDEX, "0"),
        (HEADER_TOTAL_CHUNKS, "3"), (HEADER_FILE_NAME, "f.txt")],
      body := .ok [1] }
    { headers := [(HEADER_FILE_ID, "u"), (HEADER_CHUNK_INDEX, "0"),
        (HEADER_TOTAL_CHUNKS, "3"), (HEADER_FILE_NAME, "f.txt")],
      body := .ok [2] } [1] [2] "u" 0 3 "f.txt" rfl rfl rfl rfl
    (by omega) (by omega) (by omega)).2

/-- C9: a successful non-final chunk request
(`chunk_index < total_chunks - 1`) changes only the chunk file for its own
`(upload_id, chunk_index)`: the resulting filesystem is the old one with
exactly that path set to the request body, so chunk files of other
indices, files of other uploads and the destination file are unchanged
and nothing is deleted. -/
theorem C9_nonfinal_frame (base : String) (fs : FS) (req : Request)
    (body : Body) (fid : String) (ci tc : Nat) (fn : String)
    (hb : req.body = .ok body)
    (hm : parseMeta req.headers = .ok (fid, ci, tc, fn))
    (hlt : ci < tc - 1) :
    call base fs req =
      (.ok successResponse, setFile fs (chunkPath base fid ci) body) ∧
    getFile (call base fs req).2 (chunkPath base fid ci) = some body ∧
    (∀ p, p ≠ chunkPath base fid ci →
      getFile (call base fs req).2 p = getFile fs p) := by
  have hc := call_nonlast base fs req body fid ci tc fn hb hm
    (by omega) (by omega) (by omega)
  refine ⟨hc, ?_, ?_⟩
  · rw [hc]
    exact getFile_setFile_self _ _ _
  · intro p hp
    rw [hc]
    exact getFile_setFile_ne _ _ _ _ hp

/-- Witness for C9: chunk `0` of `3` stores only `b/u/chunk_0.bin`; an
unrelated pre-existing file is untouched. -/
theorem C9_nonfinal_frame_witness :
    getFile (call "b" [("other", [9])]
      { headers := [(HEADER_FILE_ID, "u"), (HEADER_CHUNK_INDEX, "0"),
          (HEADER_TOTAL_CHUNKS, "3"), (HEADER_FILE_NAME, "f.txt")],
        body := .ok [1] }).2 "other" = some [9] := by
  have h := (C9_nonfinal_frame "b" [("other", [9])]
    { headers := [(HEADER_FILE_ID, "u"), (HEADER_CHUNK_INDEX, "0"),
        (HEADER_TOTAL_CHUNKS, "3"), (HEADER_FILE_NAME, "f.txt")],
      body := .ok [1] } [1] "u" 0 3 "f.txt" rfl rfl (by omega)).2.2
    "other" (by decide)
  exact h.trans (by rfl)

/-- C10: a request whose `X-File-Id` and `X-File-Name` headers are
present with empty string values is not rejected — no emptiness or
content validation exists — and the empty file id is used directly as a
path segment, producing the double-slash chunk path
`<base>//chunk_0.bin`. -/
theorem C10_empty_metadata_accepted (base : String) (fs : FS) (b : Body) :
    call base fs
      { headers := [(HEADER_FILE_ID, ""), (HEADER_CHUNK_INDEX, "0"),
          (HEADER_TOTAL_CHUNKS, "2"), (HEADER_FILE_NAME, "")],
        body := .ok b } =
      (.ok successResponse, setFile fs (chunkPath base "" 0) b) ∧
    chunkPath base "" 0 = base ++ "//chunk_0.bin" := by
  constructor
  · exact call_nonlast base fs _ b "" 0 2 "" rfl rfl (by omega) (by omega)
      (by omega)
  · rw [chunkPath, String.append_assoc, String.append_assoc,
      String.append_assoc, String.append_assoc]
    rfl

end SliceBread
